import Mathlib

/-!
Shallow embedding of the BionicPRO reporting pipeline
(`src/airflow/dags/bionicpro_reports_dag.py`) and of the report endpoint
(`src/backend/app.py`), together with theorems settling the specification
claims about them.

Modelling conventions:
* timestamps are seconds since the epoch (`Nat`); calendar dates are day
  numbers since the epoch (`Nat`), with `toDate ts = ts / 86400` embedding
  ClickHouse `toDate` applied to a `DateTime`;
* SQL result sets and warehouse tables are Lean lists of structure values;
* fallible store calls are modelled by success flags in a run environment:
  a failing call aborts the run at the corresponding program point, exactly
  as the Python exception would, leaving the state reached so far;
* `Float64` columns are modelled by `ℚ` (the concrete values in the claims
  are exact in both).
-/

namespace BionicPro

/-- Seconds in one civil day. -/
def secPerDay : Nat := 86400

/-- ClickHouse `toDate` on a `DateTime`: the day number of a timestamp. -/
def toDate (ts : Nat) : Nat := ts / secPerDay

/-- A row of the operational-store table `customers` (and of the warehouse
copy `bionicpro.crm_customers`). -/
structure Customer where
  customer_id : String
  full_name : String
  email : String
  country : String
  updated_at : Nat
deriving Repr, DecidableEq

/-- A row of `bionicpro.telemetry_events`. -/
structure TelemetryEvent where
  ts : Nat
  customer_id : String
  prosthesis_id : String
  response_ms : ℚ
  is_error : Nat
  battery_level : ℚ
deriving Repr, DecidableEq

/-- A row of the mart table `bionicpro.user_daily_telemetry`. -/
structure MartRow where
  event_date : Nat
  customer_id : String
  prosthesis_id : String
  full_name : String
  country : String
  events : Nat
  err_events : Nat
  avg_response_ms : ℚ
  p95_response_ms : ℚ
  avg_battery_level : ℚ
  last_update : Nat
deriving Repr, DecidableEq

/-! ## CRM delta extraction (`extract_load_crm`) -/

/-- The forward overlap of the extraction window: `timedelta(minutes=5)`,
in seconds. -/
def overlapSec : Nat := 5 * 60

/-- The SQL of `extract_load_crm`:
`SELECT ... FROM customers WHERE updated_at > wm AND updated_at <= upper
ORDER BY updated_at ASC`. -/
def selectDelta (customers : List Customer) (wm upper : Nat) : List Customer :=
  (customers.filter (fun c => decide (wm < c.updated_at) && decide (c.updated_at ≤ upper))).mergeSort
    (fun a b => decide (a.updated_at ≤ b.updated_at))

/-- `max(r[-1] for r in rows)`: the largest `updated_at` in a batch
(`0` for an empty batch, which the caller never uses). -/
def batchMaxUpdated (rows : List Customer) : Nat :=
  (rows.map Customer.updated_at).foldr max 0

/-- The persisted state an extraction run reads and writes: the
`CRM_WATERMARK` Airflow variable and the warehouse CRM copy. -/
structure ExtractState where
  watermark : Nat
  crm_customers : List Customer
deriving Repr, DecidableEq

/-- The environment of one extraction run: the operational-store contents,
the wall clock, and whether the source read and the warehouse write
succeed. -/
structure RunEnv where
  customers : List Customer
  now : Nat
  readOk : Bool
  writeOk : Bool
deriving Repr, DecidableEq

/-- The errors an extraction run can propagate. -/
inductive StoreErr where
  | readFail
  | writeFail
deriving Repr, DecidableEq

/-- One run of the `extract_load_crm` task.  A failing store call raises at
the corresponding program point in the Python task, so the run ends with the
state reached so far and the error; otherwise: read the delta, and either
append it and set the watermark to the batch maximum, or (empty delta) set
the watermark to `now + overlapSec`. -/
def extract_load_crm (env : RunEnv) (st : ExtractState) :
    ExtractState × Option StoreErr :=
  if env.readOk = false then (st, some .readFail)
  else
    let upper := env.now + overlapSec
    let rows := selectDelta env.customers st.watermark upper
    if rows.isEmpty then ({ st with watermark := upper }, none)
    else if env.writeOk = false then (st, some .writeFail)
    else ({ watermark := batchMaxUpdated rows,
            crm_customers := st.crm_customers ++ rows }, none)

/-- The states visited by a sequence of extraction runs, starting state
included. -/
def runStates (envs : List RunEnv) (st : ExtractState) : List ExtractState :=
  match envs with
  | [] => [st]
  | env :: rest => st :: runStates rest (extract_load_crm env st).1

/-! ## Mart refresh (`refresh_mart`) -/

/-- Sum of a list of rationals. -/
def sumQ (l : List ℚ) : ℚ := l.foldr (· + ·) 0

/-- The level of the `quantile(0.95)` aggregate. -/
def quantileLevel : ℚ := 95 / 100

/-- `quantile(level)(x)` over a group: interpolated quantile of the sorted
values (exact for the small groups the claims touch; no claim constrains
its value). -/
def quantileQ (level : ℚ) (l : List ℚ) : ℚ :=
  let s := l.mergeSort (fun a b => decide (a ≤ b))
  if s.isEmpty then 0
  else
    let h : ℚ := level * ((s.length : ℚ) - 1)
    let i : Nat := h.floor.toNat
    let lo := s.getD i 0
    let hi := s.getD (i + 1) lo
    lo + (h - (i : ℚ)) * (hi - lo)

/-- The `GROUP BY` key of the mart refresh query:
`(toDate(e.ts), e.customer_id, e.prosthesis_id)`. -/
def eventKey (ev : TelemetryEvent) : Nat × String × String :=
  (toDate ev.ts, ev.customer_id, ev.prosthesis_id)

/-- The distinct group keys of a list of telemetry events. -/
def groupKeys (evs : List TelemetryEvent) : List (Nat × String × String) :=
  (evs.map eventKey).dedup

/-- `ANY LEFT JOIN bionicpro.crm_customers c ON c.customer_id = e.customer_id`:
one matching CRM-copy row, if any. -/
def lookupCustomer (crm : List Customer) (cid : String) : Option Customer :=
  crm.find? (fun c => decide (c.customer_id = cid))

/-- The aggregated mart row the refresh query produces for one group key. -/
def aggRow (crm : List Customer) (now : Nat) (evs : List TelemetryEvent)
    (k : Nat × String × String) : MartRow :=
  let grp := evs.filter (fun ev => decide (eventKey ev = k))
  let c := lookupCustomer crm k.2.1
  { event_date := k.1
    customer_id := k.2.1
    prosthesis_id := k.2.2
    full_name := (c.map Customer.full_name).getD ""
    country := (c.map Customer.country).getD ""
    events := grp.length
    err_events := (grp.map TelemetryEvent.is_error).foldr (· + ·) 0
    avg_response_ms := sumQ (grp.map TelemetryEvent.response_ms) / (grp.length : ℚ)
    p95_response_ms := quantileQ quantileLevel (grp.map TelemetryEvent.response_ms)
    avg_battery_level := sumQ (grp.map TelemetryEvent.battery_level) / (grp.length : ℚ)
    last_update := now }

/-- The `INSERT ... SELECT` of `refresh_mart`: aggregate the telemetry
events with `s ≤ ts < e` (both bounds at midnight, as `toDateTime` of the
date strings) per `(event_date, customer_id, prosthesis_id)`. -/
def recomputeRows (tel : List TelemetryEvent) (crm : List Customer)
    (s e : Nat) (now : Nat) : List MartRow :=
  let win := tel.filter
    (fun ev => decide (s * secPerDay ≤ ev.ts) && decide (ev.ts < e * secPerDay))
  (groupKeys win).map (aggRow crm now win)

/-- One run of the `refresh_mart` task: `end_dt = utcnow().date() + 1 day`,
`start_dt = end_dt - days_back`; delete every mart row with
`start_dt ≤ event_date < end_dt`, then insert the recomputed aggregation of
the telemetry events with `start_dt 00:00:00 ≤ ts < end_dt 00:00:00`.
`now` is the wall clock stamped into `last_update` by `now()`. -/
def refresh_mart (tel : List TelemetryEvent) (crm : List Customer)
    (mart : List MartRow) (today : Nat) (days_back : Nat) (now : Nat) :
    List MartRow :=
  let e := today + 1
  let s := e - days_back
  (mart.filter (fun r => !(decide (s ≤ r.event_date) && decide (r.event_date < e))))
    ++ recomputeRows tel crm s e now

/-- A mart row with its `last_update` stamp erased: the collapse key plus
the aggregate values, which is what mart "contents" means for idempotence
(`last_update` is the engine's collapse tiebreaker, set to `now()`). -/
def stripLastUpdate (r : MartRow) : MartRow := { r with last_update := 0 }

/-! ## Report endpoint (`src/backend/app.py`, `get_report`) -/

/-- The authenticated caller extracted from the access token. -/
structure AuthenticatedUser where
  username : String
  roles : List String
deriving Repr, DecidableEq

/-- The role required to read reports. -/
def PROTHETIC_ROLE : String := "prothetic_user"

/-- The fixed username-to-customer mapping of the backend. -/
def USERNAME_TO_CUSTOMER_ID : List (String × String) :=
  [("prothetic1", "c1"), ("prothetic2", "c2"), ("prothetic3", "c3")]

/-- One element of the response, as built from a mart row. -/
structure DailyTelemetry where
  event_date : Nat
  prosthesis_id : String
  events : Nat
  err_events : Nat
  avg_response_ms : ℚ
  p95_response_ms : ℚ
  avg_battery_level : ℚ
deriving Repr, DecidableEq

/-- The response body of `GET /reports`. -/
structure UserReport where
  customer_id : String
  full_name : String
  country : String
  days : List DailyTelemetry
deriving Repr, DecidableEq

/-- The per-day projection of a mart row used for the `days` list. -/
def toDaily (r : MartRow) : DailyTelemetry :=
  { event_date := r.event_date
    prosthesis_id := r.prosthesis_id
    events := r.events
    err_events := r.err_events
    avg_response_ms := r.avg_response_ms
    p95_response_ms := r.p95_response_ms
    avg_battery_level := r.avg_battery_level }

/-- Lexicographic order on character lists, by code point. -/
def charListLe : List Char → List Char → Bool
  | [], _ => true
  | _ :: _, [] => false
  | a :: as, b :: bs =>
    if a.toNat = b.toNat then charListLe as bs else decide (a.toNat < b.toNat)

/-- The `ORDER BY event_date, prosthesis_id` key order of the report query. -/
def reportKeyLe (a b : MartRow) : Bool :=
  if a.event_date = b.event_date then charListLe a.prosthesis_id.data b.prosthesis_id.data
  else decide (a.event_date < b.event_date)

/-- The report query:
`SELECT ... FROM bionicpro.user_daily_telemetry WHERE customer_id = cid
ORDER BY event_date, prosthesis_id`. -/
def reportRows (mart : List MartRow) (cid : String) : List MartRow :=
  (mart.filter (fun r => decide (r.customer_id = cid))).mergeSort reportKeyLe

/-- The `GET /reports` handler, after authentication: role check, mapping
lookup, query-parameter check, then the mart query; `404` when the query is
empty, otherwise the report assembled from the first row's customer fields
and the per-day projections of all rows.  Errors are HTTP status codes. -/
def get_report (mart : List MartRow) (user : AuthenticatedUser)
    (customer_id : Option String) : Except Nat UserReport :=
  if PROTHETIC_ROLE ∈ user.roles then
    match USERNAME_TO_CUSTOMER_ID.lookup user.username with
    | none => .error 403
    | some mapped =>
      let paramOk : Bool :=
        match customer_id with
        | none => true
        | some q => decide (q = mapped)
      if paramOk then
        match reportRows mart mapped with
        | [] => .error 404
        | first :: rest =>
          .ok { customer_id := first.customer_id
                full_name := first.full_name
                country := first.country
                days := (first :: rest).map toDaily }
      else .error 403
  else .error 403

/-! ## Helper lemmas -/

theorem mem_selectDelta {src : List Customer} {wm upper : Nat} {c : Customer} :
    c ∈ selectDelta src wm upper ↔
      c ∈ src ∧ wm < c.updated_at ∧ c.updated_at ≤ upper := by
  simp [selectDelta, List.mem_mergeSort, List.mem_filter, and_assoc]

theorem le_foldr_max {l : List Nat} {x : Nat} (hx : x ∈ l) : x ≤ l.foldr max 0 := by
  induction l with
  | nil => cases hx
  | cons a t ih =>
    rcases List.mem_cons.mp hx with rfl | h
    · exact le_max_left _ _
    · exact le_trans (ih h) (le_max_right _ _)

theorem foldr_max_le {l : List Nat} {b : Nat} (h : ∀ x ∈ l, x ≤ b) :
    l.foldr max 0 ≤ b := by
  induction l with
  | nil => exact Nat.zero_le b
  | cons a t ih =>
    exact max_le (h a (List.mem_cons_self a t)) (ih fun x hx => h x (List.mem_cons_of_mem a hx))

theorem foldr_max_mem {l : List Nat} (h : l ≠ []) : l.foldr max 0 ∈ l := by
  induction l with
  | nil => exact absurd rfl h
  | cons a t ih =>
    cases t with
    | nil => simp
    | cons b t' =>
      have hstep : (a :: b :: t').foldr max 0 = max a ((b :: t').foldr max 0) := rfl
      rcases max_choice a ((b :: t').foldr max 0) with hm | hm
      · rw [hstep, hm]; exact List.mem_cons_self a (b :: t')
      · rw [hstep, hm]; exact List.mem_cons_of_mem a (ih (by simp))

theorem batchMaxUpdated_mem {rows : List Customer} (h : rows ≠ []) :
    ∃ c ∈ rows, c.updated_at = batchMaxUpdated rows := by
  have hmem : batchMaxUpdated rows ∈ rows.map Customer.updated_at :=
    foldr_max_mem (by simpa using h)
  rcases List.mem_map.mp hmem with ⟨c, hc, he⟩
  exact ⟨c, hc, he⟩

theorem le_batchMaxUpdated {rows : List Customer} {c : Customer} (h : c ∈ rows) :
    c.updated_at ≤ batchMaxUpdated rows :=
  le_foldr_max (List.mem_map_of_mem Customer.updated_at h)

theorem batchMaxUpdated_le {rows : List Customer} {b : Nat}
    (h : ∀ c ∈ rows, c.updated_at ≤ b) : batchMaxUpdated rows ≤ b := by
  refine foldr_max_le fun x hx => ?_
  rcases List.mem_map.mp hx with ⟨c, hc, rfl⟩
  exact h c hc

/-- One extraction run never moves the watermark down, and leaves it at most
`now + overlapSec`, provided the watermark it read was at most
`now + overlapSec`. -/
theorem extract_step_wm (env : RunEnv) (st : ExtractState)
    (h : st.watermark ≤ env.now + overlapSec) :
    st.watermark ≤ (extract_load_crm env st).1.watermark ∧
    (extract_load_crm env st).1.watermark ≤ env.now + overlapSec := by
  unfold extract_load_crm
  by_cases hr : env.readOk = false
  · simp [hr, h]
  · simp only [hr, if_false]
    by_cases he : (selectDelta env.customers st.watermark (env.now + overlapSec)).isEmpty
    · simp [he, h]
    · simp only [he, if_false]
      by_cases hw : env.writeOk = false
      · simp [hw, h]
      · simp only [hw, if_false]
        have hne : selectDelta env.customers st.watermark (env.now + overlapSec) ≠ [] := by
          simpa [List.isEmpty_iff] using he
        rcases batchMaxUpdated_mem hne with ⟨c, hc, hce⟩
        have hcw := mem_selectDelta.mp hc
        constructor
        · exact hce ▸ Nat.le_of_lt hcw.2.1
        · exact batchMaxUpdated_le fun d hd => (mem_selectDelta.mp hd).2.2

theorem runStates_head (envs : List RunEnv) (st : ExtractState) :
    (runStates envs st).head? = some st := by
  cases envs <;> rfl

/-! ## Claim theorems: CRM delta extraction -/

/-- C5: an extraction run selects exactly the customer records with
`W < updated_at ≤ now + Δ` (half-open below, closed above, with
`Δ = 5 minutes`), in ascending order of `updated_at`. -/
theorem extract_select_spec (src : List Customer) (wm now : Nat) :
    (∀ c, c ∈ selectDelta src wm (now + overlapSec) ↔
        c ∈ src ∧ wm < c.updated_at ∧ c.updated_at ≤ now + overlapSec) ∧
    List.Pairwise (fun a b => a.updated_at ≤ b.updated_at)
      (selectDelta src wm (now + overlapSec)) ∧
    overlapSec = 5 * 60 := by
  refine ⟨fun c => mem_selectDelta, ?_, rfl⟩
  have h := @List.sorted_mergeSort Customer
    (fun a b : Customer => decide (a.updated_at ≤ b.updated_at))
    (fun a b c hab hbc => by
      simp only [decide_eq_true_eq] at *
      exact le_trans hab hbc)
    (fun a b => by
      simp only [Bool.or_eq_true, decide_eq_true_eq]
      exact Nat.le_total a.updated_at b.updated_at)
    (src.filter (fun c => decide (wm < c.updated_at) && decide (c.updated_at ≤ now + overlapSec)))
  exact h.imp fun hab => by simpa using hab

/-- C6: after a successful run, the persisted watermark equals
`max(updated_at)` over the extracted batch when it is non-empty, and equals
`upper = now + Δ` when it is empty. -/
theorem extract_watermark_update (env : RunEnv) (st : ExtractState)
    (hr : env.readOk = true) (hw : env.writeOk = true) :
    (extract_load_crm env st).2 = none ∧
    (selectDelta env.customers st.watermark (env.now + overlapSec) = [] →
        (extract_load_crm env st).1.watermark = env.now + overlapSec) ∧
    (selectDelta env.customers st.watermark (env.now + overlapSec) ≠ [] →
        (∃ c ∈ selectDelta env.customers st.watermark (env.now + overlapSec),
            c.updated_at = (extract_load_crm env st).1.watermark) ∧
        ∀ c ∈ selectDelta env.customers st.watermark (env.now + overlapSec),
            c.updated_at ≤ (extract_load_crm env st).1.watermark) := by
  unfold extract_load_crm
  by_cases he : (selectDelta env.customers st.watermark (env.now + overlapSec)).isEmpty
  · have he' : selectDelta env.customers st.watermark (env.now + overlapSec) = [] := by
      simpa [List.isEmpty_iff] using he
    simp [hr, hw, he, he']
  · have he' : selectDelta env.customers st.watermark (env.now + overlapSec) ≠ [] := by
      simpa [List.isEmpty_iff] using he
    simp only [hr, hw, he, Bool.true_eq_false, if_false]
    refine ⟨rfl, fun h => absurd h he', fun _ => ⟨batchMaxUpdated_mem he', ?_⟩⟩
    exact fun c hc => le_batchMaxUpdated hc

/-- Witness for C6 at a concrete input (empty delta). -/
theorem extract_watermark_update_witness :
    (extract_load_crm ⟨[], 100, true, true⟩ ⟨0, []⟩).1.watermark = 100 + overlapSec :=
  (extract_watermark_update ⟨[], 100, true, true⟩ ⟨0, []⟩ rfl rfl).2.1
    (by simp [selectDelta])

/-- C4: extraction is atomic with respect to the persisted state: a failed
source read or warehouse write propagates as an error with the watermark
(and CRM copy) unchanged, and the watermark moves only on a successful run
that (when the delta is non-empty) also appended the rows. -/
theorem extract_atomic (env : RunEnv) (st : ExtractState) :
    (∀ err, (extract_load_crm env st).2 = some err → (extract_load_crm env st).1 = st) ∧
    (env.readOk = false → extract_load_crm env st = (st, some .readFail)) ∧
    (env.readOk = true → env.writeOk = false →
        selectDelta env.customers st.watermark (env.now + overlapSec) ≠ [] →
        extract_load_crm env st = (st, some .writeFail)) ∧
    ((extract_load_crm env st).1.watermark ≠ st.watermark →
        (extract_load_crm env st).2 = none ∧ env.readOk = true ∧
        (selectDelta env.customers st.watermark (env.now + overlapSec) ≠ [] →
            env.writeOk = true ∧
            (extract_load_crm env st).1.crm_customers
              = st.crm_customers ++ selectDelta env.customers st.watermark (env.now + overlapSec))) := by
  unfold extract_load_crm
  by_cases hr : env.readOk = false
  · simp [hr]
  · have hr' : env.readOk = true := by
      cases h : env.readOk
      · exact absurd h hr
      · rfl
    by_cases he : (selectDelta env.customers st.watermark (env.now + overlapSec)).isEmpty
    · have he' : selectDelta env.customers st.watermark (env.now + overlapSec) = [] := by
        simpa [List.isEmpty_iff] using he
      simp [hr', he, he']
    · have he' : selectDelta env.customers st.watermark (env.now + overlapSec) ≠ [] := by
        simpa [List.isEmpty_iff] using he
      by_cases hw : env.writeOk = false
      · simp [hr', he, hw]
      · have hw' : env.writeOk = true := by
          cases h : env.writeOk
          · exact absurd h hw
          · rfl
        simp [hr', he, hw', he']

/-- Witness for C4 at a concrete input (failed source read). -/
theorem extract_atomic_witness :
    extract_load_crm ⟨[], 0, false, true⟩ ⟨7, []⟩ = (⟨7, []⟩, some .readFail) :=
  (extract_atomic ⟨[], 0, false, true⟩ ⟨7, []⟩).2.1 rfl

/-- C3 is false as stated: with an empty delta, a run rewrites the watermark
to `now + Δ`, which is strictly below a watermark that was already ahead of
the clock.  Here the run reads watermark `1000` at `now = 0` and persists
`300`. -/
theorem extract_watermark_regression :
    (extract_load_crm ⟨[], 0, true, true⟩ ⟨1000, []⟩).2 = none ∧
    (extract_load_crm ⟨[], 0, true, true⟩ ⟨1000, []⟩).1.watermark = 300 ∧
    300 < 1000 := by
  refine ⟨?_, ?_, by decide⟩ <;> simp [extract_load_crm, selectDelta, overlapSec]

/-- C3 (amended): provided the run clocks are non-decreasing and the initial
watermark is not ahead of the first run's `now + Δ`, the persisted watermark
is non-decreasing across any sequence of extraction runs (failed runs
included). -/
theorem watermark_monotone (envs : List RunEnv) (st : ExtractState)
    (hchain : List.Chain' (fun a b => a.now ≤ b.now) envs)
    (hinit : ∀ env, envs.head? = some env → st.watermark ≤ env.now + overlapSec) :
    List.Chain' (fun a b => a.watermark ≤ b.watermark) (runStates envs st) := by
  induction envs generalizing st with
  | nil => simp [runStates]
  | cons env rest ih =>
    have hstep := extract_step_wm env st (hinit env rfl)
    have hchain' := List.chain'_cons'.mp hchain
    show List.Chain' _ (st :: runStates rest (extract_load_crm env st).1)
    refine List.chain'_cons'.mpr ⟨?_, ?_⟩
    · intro b hb
      rw [runStates_head] at hb
      cases hb
      exact hstep.1
    · refine ih (extract_load_crm env st).1 hchain'.2 ?_
      intro env2 h2
      have h3 : env.now ≤ env2.now := hchain'.1 env2 (by rw [h2]; rfl)
      exact le_trans hstep.2 (Nat.add_le_add_right h3 overlapSec)

/-- Witness for the amended C3 at a concrete input. -/
theorem watermark_monotone_witness :
    List.Chain' (fun a b => a.watermark ≤ b.watermark)
      (runStates [⟨[], 5, true, true⟩] ⟨0, []⟩) :=
  watermark_monotone [⟨[], 5, true, true⟩] ⟨0, []⟩ (by simp)
    (fun env h => by
      rw [show ([⟨[], 5, true, true⟩] : List RunEnv).head? = some ⟨[], 5, true, true⟩ from rfl] at h
      cases h
      decide)

/-! ## Claim theorems: mart refresh -/

theorem mem_recompute_window {tel : List TelemetryEvent} {crm : List Customer}
    {s e now : Nat} {r : MartRow} (hr : r ∈ recomputeRows tel crm s e now) :
    s ≤ r.event_date ∧ r.event_date < e := by
  rcases List.mem_map.mp hr with ⟨k, hk, rfl⟩
  rcases List.mem_map.mp (List.mem_dedup.mp hk) with ⟨ev, hev, rfl⟩
  have hmem := List.mem_filter.mp hev
  have hbounds := hmem.2
  simp only [Bool.and_eq_true, decide_eq_true_eq] at hbounds
  have hdate : (aggRow crm now
      (tel.filter (fun ev =>
        decide (s * secPerDay ≤ ev.ts) && decide (ev.ts < e * secPerDay)))
      (eventKey ev)).event_date = ev.ts / secPerDay := rfl
  rw [hdate]
  have hpos : 0 < secPerDay := by norm_num [secPerDay]
  constructor
  · exact (Nat.le_div_iff_mul_le hpos).mpr hbounds.1
  · exact (Nat.div_lt_iff_lt_mul hpos).mpr hbounds.2

/-- C1 is false as stated: the recomputation window starts at
`today + 1 − days_back`, not at `today − days_back`.  With `today = 10` and
`days_back = 2`, a mart row dated `8 = today − days_back` lies inside the
claimed window yet survives the refresh untouched, and nothing is recomputed
for that date. -/
theorem refresh_window_counterexample :
    (⟨8, "c1", "p1", "", "", 1, 0, 0, 0, 0, 0⟩ : MartRow) ∈
      refresh_mart [] [] [⟨8, "c1", "p1", "", "", 1, 0, 0, 0, 0, 0⟩] 10 2 0 ∧
    10 - 2 ≤ 8 ∧ 8 < 10 + 1 ∧
    recomputeRows [] [] (10 + 1 - 2) (10 + 1) 0 = [] := by
  refine ⟨?_, by decide, by decide, rfl⟩
  simp [refresh_mart, recomputeRows, groupKeys]

/-- C1 (amended): `refresh_mart` deletes and recomputes exactly the
half-open date window `[today + 1 − days_back, today + 1)`: rows outside it
survive, every surviving row is an outside original or a recomputed row, and
every recomputed row falls inside it. -/
theorem refresh_mart_window (tel : List TelemetryEvent) (crm : List Customer)
    (mart : List MartRow) (today days_back now : Nat) :
    (∀ r ∈ mart,
        ¬(today + 1 - days_back ≤ r.event_date ∧ r.event_date < today + 1) →
        r ∈ refresh_mart tel crm mart today days_back now) ∧
    (∀ r ∈ refresh_mart tel crm mart today days_back now,
        (r ∈ mart ∧ ¬(today + 1 - days_back ≤ r.event_date ∧ r.event_date < today + 1)) ∨
        r ∈ recomputeRows tel crm (today + 1 - days_back) (today + 1) now) ∧
    (∀ r ∈ recomputeRows tel crm (today + 1 - days_back) (today + 1) now,
        today + 1 - days_back ≤ r.event_date ∧ r.event_date < today + 1) := by
  refine ⟨?_, ?_, fun r hr => mem_recompute_window hr⟩
  · intro r hr hout
    refine List.mem_append_left _ (List.mem_filter.mpr ⟨hr, ?_⟩)
    rcases not_and_or.mp hout with h | h <;> simp [h]
  · intro r hr
    rcases List.mem_append.mp hr with h | h
    · left
      have hm := List.mem_filter.mp h
      refine ⟨hm.1, ?_⟩
      intro hcon
      have hb := hm.2
      simp [hcon.1, hcon.2] at hb
    · right
      exact h

/-- Witness for the amended C1 at a concrete input: a row dated outside the
window survives the refresh. -/
theorem refresh_mart_window_witness :
    (⟨12, "c", "p", "", "", 0, 0, 0, 0, 0, 0⟩ : MartRow) ∈
      refresh_mart [] [] [⟨12, "c", "p", "", "", 0, 0, 0, 0, 0, 0⟩] 10 2 0 :=
  (refresh_mart_window [] [] [⟨12, "c", "p", "", "", 0, 0, 0, 0, 0, 0⟩] 10 2 0).1
    ⟨12, "c", "p", "", "", 0, 0, 0, 0, 0, 0⟩ (List.mem_singleton.mpr rfl) (by decide)

/-- C7: the deleted window fully covers the insertion: every recomputed row
is dated strictly inside `[start, end)`, and after the delete-then-insert
pair every row dated inside the window is one of the freshly recomputed
rows (no stale pre-existing row survives there). -/
theorem refresh_mart_cover (tel : List TelemetryEvent) (crm : List Customer)
    (mart : List MartRow) (today days_back now : Nat) :
    (∀ r ∈ recomputeRows tel crm (today + 1 - days_back) (today + 1) now,
        today + 1 - days_back ≤ r.event_date ∧ r.event_date < today + 1) ∧
    (∀ r ∈ refresh_mart tel crm mart today days_back now,
        today + 1 - days_back ≤ r.event_date → r.event_date < today + 1 →
        r ∈ recomputeRows tel crm (today + 1 - days_back) (today + 1) now) := by
  refine ⟨fun r hr => mem_recompute_window hr, ?_⟩
  intro r hr h1 h2
  rcases List.mem_append.mp hr with h | h
  · have hf := (List.mem_filter.mp h).2
    simp [h1, h2] at hf
  · exact h

theorem recompute_strip (tel : List TelemetryEvent) (crm : List Customer)
    (s e n1 n2 : Nat) :
    (recomputeRows tel crm s e n1).map stripLastUpdate
      = (recomputeRows tel crm s e n2).map stripLastUpdate := by
  unfold recomputeRows
  rw [List.map_map, List.map_map]
  refine List.map_congr_left fun k _ => ?_
  rfl

/-- C2: running `refresh_mart` twice in a row over unchanged telemetry and
CRM-copy contents leaves identical mart contents — the same rows with the
same aggregate values (`last_update`, the collapse tiebreaker stamped with
the run clock, erased on both sides). -/
theorem refresh_mart_idempotent (tel : List TelemetryEvent) (crm : List Customer)
    (mart : List MartRow) (today days_back now1 now2 : Nat) :
    (refresh_mart tel crm (refresh_mart tel crm mart today days_back now1)
        today days_back now2).map stripLastUpdate
      = (refresh_mart tel crm mart today days_back now1).map stripLastUpdate := by
  have hnil : (recomputeRows tel crm (today + 1 - days_back) (today + 1) now1).filter
      (fun r => !(decide (today + 1 - days_back ≤ r.event_date)
                  && decide (r.event_date < today + 1))) = [] := by
    refine List.filter_eq_nil_iff.mpr fun r hr => ?_
    have h := mem_recompute_window hr
    simp [h.1, h.2]
  simp only [refresh_mart]
  rw [List.filter_append, hnil, List.append_nil]
  rw [List.filter_filter]
  simp only [Bool.and_self]
  rw [List.map_append, List.map_append]
  exact congrArg (List.map stripLastUpdate (mart.filter _) ++ ·)
    (recompute_strip tel crm _ _ now2 now1)

/-- C9: a telemetry event inside the refresh window whose `customer_id` has
no match in the CRM copy still yields a mart row for its
`(event_date, customer_id, prosthesis_id)` triple, with empty `full_name`
and `country`. -/
theorem refresh_mart_missing_crm (tel : List TelemetryEvent) (crm : List Customer)
    (mart : List MartRow) (today days_back now : Nat) (ev : TelemetryEvent)
    (hmem : ev ∈ tel)
    (hlo : (today + 1 - days_back) * secPerDay ≤ ev.ts)
    (hhi : ev.ts < (today + 1) * secPerDay)
    (hnone : ∀ c ∈ crm, c.customer_id ≠ ev.customer_id) :
    ∃ r ∈ refresh_mart tel crm mart today days_back now,
      r.event_date = toDate ev.ts ∧ r.customer_id = ev.customer_id ∧
      r.prosthesis_id = ev.prosthesis_id ∧ r.full_name = "" ∧ r.country = "" := by
  have hwmem : ev ∈ tel.filter (fun x =>
      decide ((today + 1 - days_back) * secPerDay ≤ x.ts)
        && decide (x.ts < (today + 1) * secPerDay)) :=
    List.mem_filter.mpr ⟨hmem, by simp [hlo, hhi]⟩
  have hk : eventKey ev ∈ groupKeys (tel.filter (fun x =>
      decide ((today + 1 - days_back) * secPerDay ≤ x.ts)
        && decide (x.ts < (today + 1) * secPerDay))) :=
    List.mem_dedup.mpr (List.mem_map_of_mem eventKey hwmem)
  have hlook : lookupCustomer crm ev.customer_id = none := by
    refine List.find?_eq_none.mpr fun c hc => ?_
    simp [hnone c hc]
  refine ⟨aggRow crm now (tel.filter (fun x =>
      decide ((today + 1 - days_back) * secPerDay ≤ x.ts)
        && decide (x.ts < (today + 1) * secPerDay))) (eventKey ev), ?_, ?_⟩
  · unfold refresh_mart
    refine List.mem_append_right _ ?_
    unfold recomputeRows
    exact List.mem_map.mpr ⟨eventKey ev, hk, rfl⟩
  · exact ⟨rfl, rfl, rfl, by simp [aggRow, eventKey, hlook], by simp [aggRow, eventKey, hlook]⟩

/-- C8: with exactly the telemetry events
`(ts = 2025-01-01T10:00, is_error = 0, response_ms = 100)` and
`(ts = 2025-01-01T11:00, is_error = 1, response_ms = 300)` for
`("c1", "p1")`, refreshing a window containing 2025-01-01 (day 20089)
produces a single mart row for that triple with `events = 2`,
`err_events = 1` and `avg_response_ms = 200`. -/
theorem refresh_mart_aggregate_example :
    (refresh_mart [⟨1735725600, "c1", "p1", 100, 0, 0⟩, ⟨1735729200, "c1", "p1", 300, 1, 0⟩]
        [] [] 20089 1 0).map
      (fun r => (r.event_date, r.customer_id, r.prosthesis_id, r.events, r.err_events,
                 r.avg_response_ms))
      = [(20089, "c1", "p1", 2, 1, (200 : ℚ))] := by
  norm_num [refresh_mart, recomputeRows, groupKeys, aggRow, eventKey, toDate, secPerDay,
    lookupCustomer, sumQ, List.dedup]

/-- Witness for C9 at a concrete input. -/
theorem refresh_mart_missing_crm_witness :
    ∃ r ∈ refresh_mart [⟨10, "cX", "p1", 0, 0, 0⟩] [] [] 0 1 0,
      r.event_date = toDate 10 ∧ r.customer_id = "cX" ∧ r.prosthesis_id = "p1" ∧
      r.full_name = "" ∧ r.country = "" :=
  refresh_mart_missing_crm [⟨10, "cX", "p1", 0, 0, 0⟩] [] [] 0 1 0
    ⟨10, "cX", "p1", 0, 0, 0⟩ (List.mem_singleton.mpr rfl) (by decide) (by decide)
    (by simp)

/-- Witness for C7 at a concrete input: the single recomputed row of a
one-event telemetry list is dated inside the window. -/
theorem refresh_mart_cover_witness :
    (aggRow [] 0 [⟨0, "c", "p", 0, 0, 0⟩] (0, "c", "p")).event_date < 0 + 1 :=
  ((refresh_mart_cover [⟨0, "c", "p", 0, 0, 0⟩] [] [] 0 1 0).1
    (aggRow [] 0 [⟨0, "c", "p", 0, 0, 0⟩] (0, "c", "p"))
    (by
      have : recomputeRows [⟨0, "c", "p", 0, 0, 0⟩] [] (0 + 1 - 1) (0 + 1) 0
          = [aggRow [] 0 [⟨0, "c", "p", 0, 0, 0⟩] (0, "c", "p")] := by
        simp [recomputeRows, groupKeys, eventKey, toDate, secPerDay]
      rw [this]
      exact List.mem_singleton.mpr rfl)).2

/-! ## Claim theorems: report endpoint -/

/-- C10: `GET /reports` returns exactly the mart rows of the customer bound
to the authenticated username: a caller without the `prothetic_user` role,
or with an unmapped username, or requesting a `customer_id` other than
their own, gets `403` and no data; a mapped customer with no mart rows gets
`404`; on success the `days` list is precisely the mart rows whose
`customer_id` is the caller's mapped customer. -/
theorem get_report_access (mart : List MartRow) (u : AuthenticatedUser)
    (qp : Option String) :
    (PROTHETIC_ROLE ∉ u.roles → get_report mart u qp = .error 403) ∧
    (USERNAME_TO_CUSTOMER_ID.lookup u.username = none →
        get_report mart u qp = .error 403) ∧
    (∀ mapped q, USERNAME_TO_CUSTOMER_ID.lookup u.username = some mapped →
        qp = some q → q ≠ mapped → get_report mart u qp = .error 403) ∧
    (∀ mapped, PROTHETIC_ROLE ∈ u.roles →
        USERNAME_TO_CUSTOMER_ID.lookup u.username = some mapped →
        (qp = none ∨ qp = some mapped) →
        (mart.filter (fun r => decide (r.customer_id = mapped)) = [] →
            get_report mart u qp = .error 404) ∧
        (∀ rep, get_report mart u qp = .ok rep →
            rep.days = (reportRows mart mapped).map toDaily ∧
            ∀ d, d ∈ rep.days ↔ ∃ r ∈ mart, r.customer_id = mapped ∧ toDaily r = d)) := by
  refine ⟨?_, ?_, ?_, ?_⟩
  · intro h
    simp [get_report, h]
  · intro h
    by_cases hrole : PROTHETIC_ROLE ∈ u.roles
    · simp [get_report, hrole, h]
    · simp [get_report, hrole]
  · intro mapped q hl hq hne
    subst hq
    by_cases hrole : PROTHETIC_ROLE ∈ u.roles
    · simp [get_report, hrole, hl, hne]
    · simp [get_report, hrole]
  · intro mapped hrole hl hqp
    constructor
    · intro hfil
      have hrr : reportRows mart mapped = [] := by
        unfold reportRows
        rw [hfil, List.mergeSort_nil]
      rcases hqp with rfl | rfl <;> simp [get_report, hrole, hl, hrr]
    · intro rep hok
      cases hrows : reportRows mart mapped with
      | nil =>
        rcases hqp with rfl | rfl <;> simp [get_report, hrole, hl, hrows] at hok
      | cons first rest =>
        have hcomp : get_report mart u qp
            = .ok { customer_id := first.customer_id, full_name := first.full_name,
                    country := first.country, days := (first :: rest).map toDaily } := by
          rcases hqp with rfl | rfl <;> simp [get_report, hrole, hl, hrows]
        have hA : ({ customer_id := first.customer_id, full_name := first.full_name,
                     country := first.country,
                     days := (first :: rest).map toDaily } : UserReport) = rep :=
          Except.ok.inj (hcomp.symm.trans hok)
        have hdays : rep.days = (first :: rest).map toDaily := by
          rw [← hA]
        refine ⟨by rw [hdays], fun d => ?_⟩
        rw [hdays, ← hrows]
        simp only [reportRows, List.mem_map, List.mem_mergeSort, List.mem_filter,
          decide_eq_true_eq]
        constructor
        · rintro ⟨r, ⟨hrm, hrc⟩, hrd⟩
          exact ⟨r, hrm, hrc, hrd⟩
        · rintro ⟨r, hrm, hrc, hrd⟩
          exact ⟨r, ⟨hrm, hrc⟩, hrd⟩

/-- Witness for C10 at a concrete input: a caller without the role gets
`403`. -/
theorem get_report_access_witness :
    get_report [] ⟨"nobody", []⟩ none = .error 403 :=
  (get_report_access [] ⟨"nobody", []⟩ none).1 (by simp)

end BionicPro
